import Mathlib

/-!
Verification of the `sling` HTTP request-builder library (package `sling`,
files `sling.go`, `tracer.go`, `response.go`).  The Go code is embedded
shallowly: query strings and response bodies are byte lists (`List Nat`,
each entry `< 256` at the points where it matters), Go maps become
association lists, mutable `*Sling` objects live in an explicit store, and
fallible operations return `Except`.
-/

/-! ## Bytes -/

/-- Go byte strings (`[]byte` / the bytes of a Go `string`). -/
abbrev Bytes := List Nat

/-- Bytes of an ASCII Lean string literal (used only on ASCII literals,
where a Go string's UTF-8 bytes coincide with the code points). -/
def strBytes (s : String) : Bytes :=
  s.data.map Char.toNat

/-- Decimal ASCII digits of `n`, as produced by `fmt`'s `%d` verb. -/
def natDigits (n : Nat) : Bytes :=
  (Nat.toDigits 10 n).map Char.toNat

/-! ## Query aggregation: `net/url` query model

`addQueryStructs` (sling.go) delegates to `url.ParseQuery`,
`url.Values.Add` and `url.Values.Encode`; those stdlib functions are
embedded here at byte level, matching `net/url`. -/

/-- `url.Values`: a map from keys to lists of values.  Go's map is
unordered; the association-list order stands in for the (irrelevant)
iteration order, since `Encode` sorts keys. -/
abbrev ValuesB := List (Bytes × List Bytes)

/-- First-match lookup, empty list when absent (Go map indexing `v[key]`). -/
def lookupVals (m : ValuesB) (k : Bytes) : List Bytes :=
  match m with
  | [] => []
  | (k', vs) :: rest => if k' = k then vs else lookupVals rest k

/-- `url.Values.Add`: append `v` to the list stored under `k`. -/
def valuesAdd (m : ValuesB) (k v : Bytes) : ValuesB :=
  match m with
  | [] => [(k, [v])]
  | (k', vs) :: rest =>
    if k' = k then (k', vs ++ [v]) :: rest else (k', vs) :: valuesAdd rest k v

/-- Hex digit value of an ASCII byte (`ishex`/`unhex` in net/url). -/
def unhexB (c : Nat) : Option Nat :=
  if 48 ≤ c ∧ c ≤ 57 then some (c - 48)
  else if 65 ≤ c ∧ c ≤ 70 then some (c - 55)
  else if 97 ≤ c ∧ c ≤ 102 then some (c - 87)
  else none

/-- `url.QueryUnescape`: `+` is a space, `%XX` decodes, anything else is
kept; a malformed `%` sequence is an error. -/
def queryUnescape : Bytes → Except Unit Bytes
  | [] => .ok []
  | c :: rest =>
    if c = 37 then
      match rest with
      | h1 :: h2 :: rest2 =>
        match unhexB h1, unhexB h2 with
        | some a, some b => (queryUnescape rest2).map (fun t => (a * 16 + b) :: t)
        | _, _ => .error ()
      | _ => .error ()
    else if c = 43 then (queryUnescape rest).map (fun t => 32 :: t)
    else (queryUnescape rest).map (fun t => c :: t)

/-- Bytes kept verbatim by `url.QueryEscape` (alphanumerics and `-_.~`). -/
def isUnreservedByte (b : Nat) : Bool :=
  (65 ≤ b && b ≤ 90) || (97 ≤ b && b ≤ 122) || (48 ≤ b && b ≤ 57) ||
    b == 45 || b == 95 || b == 46 || b == 126

/-- Upper-case hex digit of `n < 16`. -/
def hexUpper (n : Nat) : Nat := if n < 10 then 48 + n else 55 + n

/-- `url.QueryEscape`: space becomes `+`, unreserved bytes are kept, the
rest become `%XX`. -/
def queryEscape (s : Bytes) : Bytes :=
  s.flatMap fun b =>
    if isUnreservedByte b then [b]
    else if b = 32 then [43]
    else [37, hexUpper (b / 16), hexUpper (b % 16)]

/-- Splits on byte `b`, the segmentation `strings.Cut` performs inside
`url.ParseQuery`'s loop. -/
def splitOnByte (b : Nat) : Bytes → List Bytes
  | [] => [[]]
  | c :: rest =>
    let r := splitOnByte b rest
    if c = b then [] :: r
    else
      match r with
      | [] => [[c]]
      | h :: t => (c :: h) :: t

/-- Splits at the first occurrence of byte `b` (`strings.Cut`); when `b`
is absent the second component is empty, matching the Go callers that
ignore the `found` flag. -/
def cutByte (b : Nat) : Bytes → Bytes × Bytes
  | [] => ([], [])
  | c :: rest =>
    if c = b then ([], rest)
    else
      let p := cutByte b rest
      (c :: p.1, p.2)

/-- Errors of the query pipeline. `semicolon` is `url.ParseQuery`'s
"invalid semicolon separator in query", `badEscape` a `%`-escape error,
`encodeFail` a failure of the injected struct encoder (`goquery.Values`). -/
inductive QErr
  | semicolon
  | badEscape
  | encodeFail
deriving DecidableEq, Repr

/-- One segment of `url.ParseQuery`'s loop body: skip empty segments,
reject semicolons, cut at `=`, unescape key and value, `Add` the pair.
(Go collects the first error while continuing to parse; since the only
caller aborts on any error, failing fast is observationally the same.) -/
def processSeg (m : ValuesB) (seg : Bytes) : Except QErr ValuesB :=
  if seg.contains 59 then .error .semicolon
  else if seg = [] then .ok m
  else
    let p := cutByte 61 seg
    match queryUnescape p.1, queryUnescape p.2 with
    | .ok k, .ok v => .ok (valuesAdd m k v)
    | _, _ => .error .badEscape

/-- `url.ParseQuery` over the raw query bytes. -/
def parseQuery (raw : Bytes) : Except QErr ValuesB :=
  (splitOnByte 38 raw).foldlM processSeg []

/-- Key order used by `url.Values.Encode`'s `sort.Strings` (byte-wise
lexicographic order on the raw, unescaped keys). -/
def keyLe (a b : Bytes × List Bytes) : Prop := a.1 ≤ b.1

instance : DecidableRel keyLe := fun a b => inferInstanceAs (Decidable (a.1 ≤ b.1))

instance : IsTotal (Bytes × List Bytes) keyLe := ⟨fun a b => le_total a.1 b.1⟩

instance : IsTrans (Bytes × List Bytes) keyLe := ⟨fun _ _ _ h1 h2 => le_trans h1 h2⟩

/-- The entries of a `url.Values`, in the sorted key order `Encode` uses. -/
def sortPairs (m : ValuesB) : ValuesB := List.insertionSort keyLe m

/-- The `key=value` pairs `url.Values.Encode` serializes, in order:
sorted by key, each key's values in stored order. -/
def encodePairs (m : ValuesB) : List (Bytes × Bytes) :=
  (sortPairs m).flatMap fun e => e.2.map fun v => (e.1, v)

/-- `url.Values.Encode`: escaped `key=value` pairs joined by `&`. -/
def encodeValues (m : ValuesB) : Bytes :=
  List.intercalate [38]
    ((encodePairs m).map fun p => queryEscape p.1 ++ [61] ++ queryEscape p.2)

deriving instance DecidableEq for Except

/-- An element of `Sling.queryStructs`: either a `url.Values` added by
`QueryValues`, or an opaque tagged struct added by `QueryStruct`, the
latter represented by the outcome of the external encoder
`goquery.Values` that `addQueryStructs` applies to it. -/
inductive QuerySource
  | values (v : ValuesB)
  | structEnc (r : Except Unit ValuesB)
deriving DecidableEq, Repr

/-- The `url.Values` a query source contributes: a `url.Values` source is
used directly (the type switch in `addQueryStructs`); a struct source
goes through the external encoder, whose failure aborts. -/
def sourceValues : QuerySource → Except Unit ValuesB
  | .values v => .ok v
  | .structEnc r => r

/-- Total variant of `sourceValues` (meaningful under an all-sources-ok
hypothesis). -/
def sourceValuesD (q : QuerySource) : ValuesB :=
  match sourceValues q with
  | .ok v => v
  | .error _ => []

/-- The merge loop body of `addQueryStructs`: `urlValues.Add(key, value)`
for every key and every value of the source's map. -/
def mergeInto (acc : ValuesB) (src : ValuesB) : ValuesB :=
  src.foldl (fun acc e => e.2.foldl (fun acc v => valuesAdd acc e.1 v) acc) acc

/-- All sources merged into the parsed existing query, in source order. -/
def mergeAll (m0 : ValuesB) (srcs : List ValuesB) : ValuesB :=
  srcs.foldl mergeInto m0

/-- `addQueryStructs` (sling.go): parse the existing raw query, merge
every source by key-wise `Add`, re-encode.  Returns the new `RawQuery`. -/
def addQueryStructs (raw : Bytes) (qs : List QuerySource) : Except QErr Bytes := do
  let m0 ← parseQuery raw
  let m ← qs.foldlM
    (fun acc q =>
      match sourceValues q with
      | .ok v => .ok (mergeInto acc v)
      | .error _ => .error QErr.encodeFail)
    m0
  .ok (encodeValues m)

/-- Values listed under key `k` in a serialized pair list, in order. -/
def pairsAt (l : List (Bytes × Bytes)) (k : Bytes) : List Bytes :=
  (l.filter fun p => p.1 == k).map fun p => p.2

/-! ## Headers: `net/http` / `net/textproto` header model

`http.Header` is a map from canonicalized keys to value slices.  Two
`Sling`s never alias one header map (`New` copies the map), and Go's
slice `append` never changes the observable contents of the other map's
slices, so value slices are modelled as plain lists. -/

/-- A header map: canonical keys to values in insertion order. -/
abbrev HeaderMap := List (String × List String)

/-- `validHeaderFieldByte` (net/textproto): the RFC 7230 token bytes. -/
def isTokenChar (c : Char) : Bool :=
  let b := c.toNat
  (65 ≤ b && b ≤ 90) || (97 ≤ b && b ≤ 122) || (48 ≤ b && b ≤ 57) ||
    b == 33 || b == 35 || b == 36 || b == 37 || b == 38 || b == 39 ||
    b == 42 || b == 43 || b == 45 || b == 46 || b == 94 || b == 95 ||
    b == 96 || b == 124 || b == 126

/-- ASCII upper-casing of one char. -/
def upChar (c : Char) : Char :=
  if 97 ≤ c.toNat ∧ c.toNat ≤ 122 then Char.ofNat (c.toNat - 32) else c

/-- ASCII lower-casing of one char. -/
def lowChar (c : Char) : Char :=
  if 65 ≤ c.toNat ∧ c.toNat ≤ 90 then Char.ofNat (c.toNat + 32) else c

/-- The rewrite loop of `canonicalMIMEHeaderKey`: upper-case at the start
of each `-`-separated token, lower-case elsewhere. -/
def canonChars (upper : Bool) : List Char → List Char
  | [] => []
  | c :: rest =>
    let c' := if upper then upChar c else lowChar c
    c' :: canonChars (c' == '-') rest

/-- `textproto.CanonicalMIMEHeaderKey`: keys containing a non-token byte
are left unchanged, otherwise canonicalized. -/
def canonicalKey (s : String) : String :=
  if s.data.all isTokenChar then String.mk (canonChars true s.data) else s

/-- First-match lookup on a header map, `[]` when absent. -/
def lookupHdr (m : HeaderMap) (k : String) : List String :=
  match m with
  | [] => []
  | (k', vs) :: rest => if k' = k then vs else lookupHdr rest k

/-- Append `v` under key `k` in the association list. -/
def addAssoc (m : HeaderMap) (k v : String) : HeaderMap :=
  match m with
  | [] => [(k, [v])]
  | (k', vs) :: rest =>
    if k' = k then (k', vs ++ [v]) :: rest else (k', vs) :: addAssoc rest k v

/-- Replace the whole entry of key `k` by `vs` (insert when absent). -/
def setAssoc (m : HeaderMap) (k : String) (vs : List String) : HeaderMap :=
  match m with
  | [] => [(k, vs)]
  | (k', vs') :: rest =>
    if k' = k then (k', vs) :: rest else (k', vs') :: setAssoc rest k vs

/-- `http.Header.Add`: canonicalize the key, append the value. -/
def headerAdd (m : HeaderMap) (k v : String) : HeaderMap :=
  addAssoc m (canonicalKey k) v

/-- `http.Header.Set`: canonicalize the key, replace by a one-value slice. -/
def headerSet (m : HeaderMap) (k v : String) : HeaderMap :=
  setAssoc m (canonicalKey k) [v]

/-- `http.Header.Values`: all values stored under the canonicalized key. -/
def headerValues (m : HeaderMap) (k : String) : List String :=
  lookupHdr m (canonicalKey k)

/-! ## Body providers

The provider implementations live in the repository's `body.go`, which is
not among the given sources; only their callers (`Body`, `BodyJSON`,
`BodyForm` in sling.go) and the `contentType` constants are.  Payloads
and readers are opaque and represented by `Nat` identities. -/

/-- Modelled from the spec (§4.3 Body Provider; the concrete
`bodyProvider` / `jsonBodyProvider` / `formBodyProvider` types of the
repository's `body.go` are missing from the sources): the active body
provider variant with its opaque payload. -/
inductive BodyProv
  | raw (reader : Nat)
  | json (payload : Nat)
  | form (payload : Nat)
deriving DecidableEq, Repr

/-- Modelled from the spec (§4.3): `ContentType()` of each provider —
empty for the raw variant, the JSON media type for the JSON variant, the
form media type for the form variant (the constants are sling.go's
`jsonContentType` / `formContentType`). -/
def contentTypeOf : BodyProv → String
  | .raw _ => ""
  | .json _ => "application/json"
  | .form _ => "application/x-www-form-urlencoded"

/-! ## The Sling store

`Sling` methods have pointer receivers and mutate in place, and `New`
copies the header map into a fresh one, so `*Sling` objects and header
maps live in explicit heaps addressed by `Nat` references.  Query-struct
slices and header value slices are kept as values: `New` copies the
former outright, and Go's `append`-based mutations never change the
observable contents of a slice held by another owner. -/

/-- The fields of one `Sling` struct (`httpClient` and `responseDecoder`
are opaque references, shared by `New` untouched). -/
structure SlingObj where
  httpClient : Nat
  method : String
  rawURL : String
  headerRef : Nat
  queryStructs : List QuerySource
  bodyProvider : Option BodyProv
  responseDecoder : Nat
deriving DecidableEq, Repr

instance : Inhabited SlingObj :=
  ⟨⟨0, "", "", 0, [], none, 0⟩⟩

/-- The heap of `Sling` structs and header maps. -/
structure Store where
  slings : Nat → SlingObj
  headers : Nat → HeaderMap
  nextSling : Nat
  nextHeader : Nat

/-- The empty heap. -/
def emptyStore : Store :=
  ⟨fun _ => default, fun _ => [], 0, 0⟩

/-- Replace the header map at reference `h`. -/
def updHeaders (st : Store) (h : Nat) (f : HeaderMap → HeaderMap) : Store :=
  { st with headers := fun n => if n = h then f (st.headers n) else st.headers n }

/-- Replace the sling object at reference `p`. -/
def updSling (st : Store) (p : Nat) (f : SlingObj → SlingObj) : Store :=
  { st with slings := fun n => if n = p then f (st.slings n) else st.slings n }

/-- The top-level constructor `sling.New()`: allocate a `Sling` with the
default client, method `GET`, a fresh empty header map, an empty
query-struct slice and the JSON decoder. -/
def slingNewRoot (st : Store) : Store × Nat :=
  let h := st.nextHeader
  let p := st.nextSling
  let obj : SlingObj :=
    { httpClient := 0, method := "GET", rawURL := "", headerRef := h,
      queryStructs := [], bodyProvider := none, responseDecoder := 0 }
  (⟨fun n => if n = p then obj else st.slings n,
    fun n => if n = h then [] else st.headers n,
    p + 1, h + 1⟩, p)

/-- The method `(s *Sling).New()`: copy every header pair into a freshly
allocated header map, copy the query-struct slice, share client, method,
raw URL, body provider and decoder. -/
def slingClone (st : Store) (p : Nat) : Store × Nat :=
  let obj := st.slings p
  let hcopy := st.headers obj.headerRef
  let h := st.nextHeader
  let c := st.nextSling
  let obj' : SlingObj := { obj with headerRef := h }
  (⟨fun n => if n = c then obj' else st.slings n,
    fun n => if n = h then hcopy else st.headers n,
    c + 1, h + 1⟩, c)

/-- `Sling.AddHeaders`: `Add` every value of every key of the argument. -/
def bulkAdd (m : HeaderMap) (arg : HeaderMap) : HeaderMap :=
  arg.foldl (fun m e => e.2.foldl (fun m v => headerAdd m e.1 v) m) m

/-- `Sling.SetHeaders`: per key of the argument, `Set` the first value
and `Add` the rest. -/
def bulkSet (m : HeaderMap) (arg : HeaderMap) : HeaderMap :=
  arg.foldl
    (fun m e =>
      match e.2 with
      | [] => m
      | v0 :: vrest => vrest.foldl (fun m v => headerAdd m e.1 v) (headerSet m e.1 v0))
    m

/-- The mutators of claim C1, each acting through a `*Sling` receiver.
`queryStruct`/`queryValues` carry `Option` for Go's `nil` arguments. -/
inductive COp
  | add (k v : String)
  | set (k v : String)
  | addHeaders (h : HeaderMap)
  | setHeaders (h : HeaderMap)
  | queryStruct (q : Option QuerySource)
  | queryValues (v : Option ValuesB)

/-- One mutator applied to the sling at `p`: header mutators write
through the sling's header reference, query mutators append to the
sling's `queryStructs` slice (a `nil` argument is a no-op). -/
def applyOp (st : Store) (p : Nat) : COp → Store
  | .add k v => updHeaders st (st.slings p).headerRef (fun m => headerAdd m k v)
  | .set k v => updHeaders st (st.slings p).headerRef (fun m => headerSet m k v)
  | .addHeaders h => updHeaders st (st.slings p).headerRef (fun m => bulkAdd m h)
  | .setHeaders h => updHeaders st (st.slings p).headerRef (fun m => bulkSet m h)
  | .queryStruct q =>
    match q with
    | none => st
    | some src => updSling st p (fun o => { o with queryStructs := o.queryStructs ++ [src] })
  | .queryValues v =>
    match v with
    | none => st
    | some vs => updSling st p (fun o => { o with queryStructs := o.queryStructs ++ [.values vs] })

/-- A chain of mutator calls on the sling at `p`. -/
def applyOps (st : Store) (p : Nat) : List COp → Store
  | [] => st
  | op :: ops => applyOps (applyOp st p op) p ops

/-- Everything observable about the sling at `p`: its struct fields and
the contents of its header map. -/
def observe (st : Store) (p : Nat) : SlingObj × HeaderMap :=
  (st.slings p, st.headers (st.slings p).headerRef)

/-- `Sling.BodyProvider`: a `nil` provider is a no-op; otherwise store it
and, when its content type is nonempty, `Set` the `Content-Type` header. -/
def opBodyProvider (st : Store) (p : Nat) (bp : Option BodyProv) : Store :=
  match bp with
  | none => st
  | some b =>
    let st1 := updSling st p (fun o => { o with bodyProvider := some b })
    if contentTypeOf b ≠ "" then
      updHeaders st1 (st1.slings p).headerRef (fun m => headerSet m "Content-Type" (contentTypeOf b))
    else st1

/-- `Sling.Body`: a `nil` reader is a no-op; otherwise wrap it in the raw
provider. -/
def opBody (st : Store) (p : Nat) (reader : Option Nat) : Store :=
  match reader with
  | none => st
  | some r => opBodyProvider st p (some (.raw r))

/-- `Sling.BodyJSON`: a `nil` payload is a no-op; otherwise wrap it in
the JSON provider. -/
def opBodyJSON (st : Store) (p : Nat) (x : Option Nat) : Store :=
  match x with
  | none => st
  | some v => opBodyProvider st p (some (.json v))

/-! ## URL parsing and `Path` / `requestWithContext`

`Sling.Path` and `requestWithContext` call `net/url`'s `Parse`,
`ResolveReference` and `String`.  Their control flow is independent of
the parser's internals, so the parser is abstracted as a record of
operations, with a small concrete instance below for evaluation. -/

/-- The `net/url` operations `Sling.Path` and `requestWithContext`
depend on: `Parse`, `ResolveReference`, `String` (render), plus access
to the parsed URL's `RawQuery` field. -/
structure URLModel (U : Type) (E : Type) where
  parse : String → Except E U
  resolveRef : U → U → U
  render : U → String
  rawQuery : U → Bytes
  setRawQuery : U → Bytes → U

/-- `Sling.Path`: parse the current raw URL and the path argument; when
both parse, store the rendered reference resolution; on any parse error
leave the builder untouched and return no error (the method's only
return value is the receiver). -/
def opPath {U E : Type} (M : URLModel U E) (st : Store) (p : Nat) (path : String) : Store :=
  match M.parse (st.slings p).rawURL, M.parse path with
  | .ok base, .ok pu =>
    updSling st p (fun o => { o with rawURL := M.render (M.resolveRef base pu) })
  | _, _ => st

/-- Errors of `requestWithContext`, in the order the code can produce
them: the raw URL's parse error, the query aggregation error, a body
materialization error. -/
inductive ReqErr (E : Type)
  | urlParse (e : E)
  | query (e : QErr)
  | body
deriving DecidableEq

/-- The concrete `*http.Request` produced by `requestWithContext`:
method, final URL string (with the merged query installed), optional
body stream, and the sling's headers (added onto the fresh request by
`addHeaders`'s append loop). -/
structure RequestObj where
  method : String
  urlString : String
  body : Option Bytes
  header : HeaderMap
deriving DecidableEq

/-- The materialized body stream: `Body()` of the active provider, `nil`
when no provider is set.  The provider implementations are external to
the given sources, so the materializer `bodyOf` is a parameter. -/
def materializeBody (bodyOf : BodyProv → Except Unit Bytes) :
    Option BodyProv → Except Unit (Option Bytes)
  | none => .ok none
  | some b => (bodyOf b).map some

/-- `Sling.requestWithContext`: parse the raw URL (first error), run
`addQueryStructs` over its query and the accumulated sources (second
error), materialize the body (third error), then build the request with
the sling's method and headers. -/
def slingRequest {U E : Type} (M : URLModel U E) (bodyOf : BodyProv → Except Unit Bytes)
    (st : Store) (p : Nat) : Except (ReqErr E) RequestObj :=
  match M.parse (st.slings p).rawURL with
  | .error e => .error (.urlParse e)
  | .ok u =>
    match addQueryStructs (M.rawQuery u) (st.slings p).queryStructs with
    | .error qe => .error (.query qe)
    | .ok q =>
      match materializeBody bodyOf (st.slings p).bodyProvider with
      | .error _ => .error .body
      | .ok ob =>
        .ok { method := (st.slings p).method,
              urlString := M.render (M.setRawQuery u q),
              body := ob,
              header := st.headers (st.slings p).headerRef }

/-- A minimal concrete URL type for instantiating `URLModel` in
witnesses: a rendered base string plus a raw query. -/
structure DemoURL where
  base : String
  query : Bytes
deriving DecidableEq

/-- A small concrete `URLModel` instance used to evaluate the parametric
theorems: parsing fails exactly on strings containing an ASCII control
character (one of `net/url.Parse`'s real failure modes); resolution
concatenates. -/
def demoURLModel : URLModel DemoURL String :=
  { parse := fun s =>
      if s.data.any (fun c => c.toNat < 32) then .error "net/url: invalid control character in URL"
      else .ok ⟨s, []⟩,
    resolveRef := fun b p => ⟨b.base ++ p.base, p.query⟩,
    render := fun u => u.base,
    rawQuery := fun u => u.query,
    setRawQuery := fun u q => { u with query := q } }

/-! ## The dispatcher: `do`, `doDecode`, `decodeResponse`, `readWithCap`

Transport errors and context causes are opaque apart from the identity
check `err == context.Canceled` that `Sling.do` performs. -/

/-- A transport error: Go's `context.Canceled` sentinel, or any other
error (opaque identity). -/
inductive TErr
  | canceled
  | other (n : Nat)
deriving DecidableEq, Repr

/-- `Sling.do`: forward the `Doer`'s result, except that the exact error
`context.Canceled` is replaced by `context.Cause(req.Context())` when
that cause is non-nil. -/
def slingDo {R : Type} (resp : Option R) (err : Option TErr) (ctxCause : Option TErr) :
    Option R × Option TErr :=
  match err with
  | some .canceled =>
    match ctxCause with
    | some c => (resp, some c)
    | none => (resp, some .canceled)
  | e => (resp, e)

/-- The `*http.Response` fields the dispatcher reads, plus the body
bytes the stream would deliver. -/
structure HResp where
  status : String
  statusCode : Nat
  proto : String
  protoMajor : Nat
  protoMinor : Nat
  header : HeaderMap
  contentLength : Int
  body : Bytes
deriving DecidableEq, Repr

/-- `sling.Response` (response summary): the `newResponse` copy of the
raw response, excluding the body. -/
structure RespSummary where
  status : String
  statusCode : Nat
  proto : String
  protoMajor : Nat
  protoMinor : Nat
  header : HeaderMap
  contentLength : Int
deriving DecidableEq, Repr

/-- `newResponse`: field-by-field copy of the response, body excluded.
Its Go argument is a pointer it dereferences unconditionally. -/
def newResponse (r : HResp) : RespSummary :=
  { status := r.status, statusCode := r.statusCode, proto := r.proto,
    protoMajor := r.protoMajor, protoMinor := r.protoMinor,
    header := r.header, contentLength := r.contentLength }

/-- `isSuccessful`: status codes in `[200, 299]`. -/
def isSuccessful (code : Nat) : Bool :=
  200 ≤ code && code ≤ 299

/-- ASCII bytes of the `" (truncated)"` suffix `readWithCap` appends. -/
def truncMarker : Bytes := strBytes " (truncated)"

/-- `readWithCap` over a fully readable stream of `body` bytes: the `cap`
argument is ignored (the local `maxBodySize := 100` shadows it); the
code reads up to 101 bytes with `io.ReadFull`, whose `io.EOF` on an
empty stream is returned as-is (only `ErrUnexpectedEOF` is tolerated);
at most 100 bytes are kept, with the marker appended when a 101st byte
exists.  (The `n == 0` "got no response content" branch is unreachable
for a conforming reader, since `ReadFull` reports `io.EOF` instead.) -/
def readWithCap (body : Bytes) (_capArg : Nat) : Except Unit Bytes :=
  let maxBodySize := 100
  let n := min (maxBodySize + 1) body.length
  if n = 0 then .error ()
  else if n ≤ maxBodySize then .ok (body.take n)
  else .ok (body.take maxBodySize ++ truncMarker)

/-- The errors `doDecode` can return. -/
inductive DErr
  | transport (e : TErr)
  | noBody (code : Nat)
  | couldNotGetBody (code : Nat)
  | gotBody (code : Nat) (excerpt : Bytes)
  | decode (n : Nat)
deriving DecidableEq, Repr

/-- The message bytes of each `doDecode` error (the `fmt.Errorf` format
strings of sling.go; transport and decode errors keep their own text). -/
def renderDErr : DErr → Bytes
  | .transport _ => strBytes "transport error"
  | .noBody code =>
    strBytes "status code " ++ natDigits code ++ strBytes " was not successful and had no body"
  | .couldNotGetBody code =>
    strBytes "status code " ++ natDigits code ++ strBytes " was not successful and could not get body: EOF"
  | .gotBody code excerpt =>
    strBytes "status code " ++ natDigits code ++ strBytes " was not successful, got body: " ++ excerpt
  | .decode n => strBytes "decode error " ++ natDigits n

/-- `decodeResponse`: 2XX decodes into the success destination when one
is supplied; otherwise the failure destination is decoded into when
supplied, else an error is synthesized from a capped read of the body.
`successV`/`failureV` are `true` when non-nil; `decodeRes` is the error
the injected decoder would return (`none` on success).  The second
component records whether the decoder ran. -/
def decodeResponse (r : HResp) (successV failureV : Bool) (decodeRes : Option Nat) :
    Option DErr × Bool :=
  if isSuccessful r.statusCode then
    if successV then (decodeRes.map .decode, true) else (none, false)
  else if failureV then (decodeRes.map .decode, true)
  else
    match readWithCap r.body 100 with
    | .error _ => (some (.couldNotGetBody r.statusCode), false)
    | .ok b => (some (.gotBody r.statusCode b), false)

/-- A Go runtime panic reached by the model. -/
inductive GoPanic
  | nilDeref
deriving DecidableEq, Repr

/-- What a `doDecode` call returns: the response summary, the error, and
whether the decoder was invoked. -/
structure Outcome where
  resp : RespSummary
  err : Option DErr
  decoderCalled : Bool
deriving DecidableEq, Repr

/-- `Sling.doDecode`, fed with the `Doer`'s raw result and the context
cause: translate cancellation via `Sling.do`; on a transport error
return `newResponse(resp)` with the error — a nil response is
dereferenced there and panics; skip decoding on 204; on a declared
content length of 0, report "had no body" exactly when no failure
destination was supplied and the status is non-2XX; otherwise decode
only when some destination is non-nil. -/
def doDecode (doerResp : Option HResp) (doerErr : Option TErr) (ctxCause : Option TErr)
    (successV failureV : Bool) (decodeRes : Option Nat) : Except GoPanic Outcome :=
  let pair := slingDo doerResp doerErr ctxCause
  match pair.2 with
  | some e =>
    match pair.1 with
    | none => .error .nilDeref
    | some r => .ok ⟨newResponse r, some (.transport e), false⟩
  | none =>
    match pair.1 with
    | none => .error .nilDeref
    | some r =>
      if r.statusCode = 204 then .ok ⟨newResponse r, none, false⟩
      else if r.contentLength = 0 then
        if failureV = false ∧ isSuccessful r.statusCode = false then
          .ok ⟨newResponse r, some (.noBody r.statusCode), false⟩
        else .ok ⟨newResponse r, none, false⟩
      else if successV || failureV then
        let d := decodeResponse r successV failureV decodeRes
        .ok ⟨newResponse r, d.1, d.2⟩
      else .ok ⟨newResponse r, none, false⟩

/-! ## The traced body (`tracer.go`)

`bodyWithTracer` wraps an `io.ReadCloser`; its behaviour is a function
of the underlying stream's per-call results, so a run is modelled as a
list of calls each carrying the underlying stream's result. -/

/-- The result the underlying stream returns for one call: for a read,
the byte count and `nil` / `io.EOF` / another error; for a close, `nil`
or an error.  Error identities are opaque `Nat`s. -/
inductive BodyEv
  | read (n : Nat) (eof : Bool) (e : Option Nat)
  | close (e : Option Nat)

/-- The error channel of a `bodyWithTracer.Read`/`Close` call: the
underlying error passed through, `io.EOF`, or the `EndTrace` failure
wrapped by `fmt.Errorf("...: %w", err)`. -/
inductive TraceErr
  | eof
  | underlying (n : Nat)
  | wrappedEnd (n : Nat)
deriving DecidableEq, Repr

/-- The visible result of one call on the wrapper. -/
inductive CallRes
  | readRes (n : Nat) (e : Option TraceErr)
  | closeRes (e : Option TraceErr)
deriving DecidableEq, Repr

/-- One step of `bodyWithTracer`: state is the `hasEnded` flag; `et` is
what `tracer.EndTrace` returns when invoked.  `Read` triggers `endTrace`
exactly on `io.EOF`; `Close` triggers it exactly when the underlying
close succeeded; `endTrace` is a no-op once `hasEnded` is set.  The
returned `Nat` counts `EndTrace` invocations in this step. -/
def stepTracer (et : Option Nat) (hasEnded : Bool) : BodyEv → Bool × Nat × CallRes
  | .read n eof e =>
    if eof then
      if hasEnded then (hasEnded, 0, .readRes n (some .eof))
      else
        match et with
        | some terr => (true, 1, .readRes 0 (some (.wrappedEnd terr)))
        | none => (true, 1, .readRes n (some .eof))
    else (hasEnded, 0, .readRes n (e.map .underlying))
  | .close e =>
    match e with
    | some err => (hasEnded, 0, .closeRes (some (.underlying err)))
    | none =>
      if hasEnded then (hasEnded, 0, .closeRes none)
      else
        match et with
        | some terr => (true, 1, .closeRes (some (.wrappedEnd terr)))
        | none => (true, 1, .closeRes none)

/-- Total number of `EndTrace` invocations over a run. -/
def runTracerFires (et : Option Nat) (hasEnded : Bool) : List BodyEv → Nat
  | [] => 0
  | ev :: evs =>
    let s := stepTracer et hasEnded ev
    s.2.1 + runTracerFires et s.1 evs

/-- The events that make `bodyWithTracer` invoke `endTrace`: a read the
underlying stream answers with `io.EOF`, or a close the underlying
stream answers without error. -/
def triggers : BodyEv → Bool
  | .read _ eof _ => eof
  | .close e => e.isNone

/-- `Sling.Base`: replace the raw URL outright. -/
def opBase (st : Store) (p : Nat) (rawURL : String) : Store :=
  updSling st p (fun o => { o with rawURL := rawURL })

/-- Whether a query source's structured encoding succeeds. -/
def srcOk (q : QuerySource) : Bool :=
  match sourceValues q with
  | .ok _ => true
  | .error _ => false

/-- A `url.Values` association list with the key uniqueness every Go map
has. -/
def nodupKeys (m : ValuesB) : Prop :=
  (m.map Prod.fst).Nodup

instance (m : ValuesB) : Decidable (nodupKeys m) :=
  inferInstanceAs (Decidable (m.map Prod.fst).Nodup)

/-! ## Theorems -/

/-- Claim C9: when the injected `Doer` returns the exact
`context.Canceled` error and the request context records a cancellation
cause, `Sling.do` returns that cause instead; a bare cancellation
without a cause, any other error, and the no-error case pass through
unchanged, as does the response value. -/
theorem do_cancellation_translated :
    (∀ (resp : Option HResp) (c : TErr),
        slingDo resp (some .canceled) (some c) = (resp, some c))
    ∧ (∀ resp : Option HResp,
        slingDo resp (some .canceled) none = (resp, some .canceled))
    ∧ (∀ (resp : Option HResp) (n : Nat) (cause : Option TErr),
        slingDo resp (some (.other n)) cause = (resp, some (.other n)))
    ∧ (∀ (resp : Option HResp) (cause : Option TErr),
        slingDo resp none cause = (resp, none)) :=
  ⟨fun _ _ => rfl, fun _ => rfl, fun _ _ _ => rfl, fun _ _ => rfl⟩

/-- Claim C7: a 204 response never reaches the decoder, whatever
destinations were supplied, and `doDecode` returns the summary with a
nil error. -/
theorem status_204_skips_decoding (r : HResp) (h : r.statusCode = 204)
    (sv fv : Bool) (dres : Option Nat) :
    doDecode (some r) none none sv fv dres = .ok ⟨newResponse r, none, false⟩ := by
  simp [doDecode, slingDo, h]

/-- Witness for `status_204_skips_decoding`. -/
theorem status_204_skips_decoding_witness :
    doDecode (some ⟨"204 No Content", 204, "HTTP/1.1", 1, 1, [], 0, []⟩) none none true true (some 3)
      = .ok ⟨newResponse ⟨"204 No Content", 204, "HTTP/1.1", 1, 1, [], 0, []⟩, none, false⟩ :=
  status_204_skips_decoding _ rfl true true (some 3)

/-- Claim C3: a response with declared content length 0 and a status
that is neither 204 nor in `[200,299]`, handled with a nil failure
destination, yields the "was not successful and had no body" error and
never invokes the decoder; with a failure destination supplied, or a
2XX status, the same zero-length response yields a nil error, again
without decoding. -/
theorem empty_body_policy (r : HResp) (hcl : r.contentLength = 0)
    (h204 : r.statusCode ≠ 204) (sv : Bool) (dres : Option Nat) :
    (isSuccessful r.statusCode = false →
        doDecode (some r) none none sv false dres
          = .ok ⟨newResponse r, some (.noBody r.statusCode), false⟩)
    ∧ ∀ fv : Bool, (fv = true ∨ isSuccessful r.statusCode = true) →
        doDecode (some r) none none sv fv dres = .ok ⟨newResponse r, none, false⟩ := by
  constructor
  · intro hns
    simp [doDecode, slingDo, h204, hcl, hns]
  · intro fv hfv
    rcases hfv with hfv | hsucc
    · subst hfv
      simp [doDecode, slingDo, h204, hcl]
    · simp [doDecode, slingDo, h204, hcl, hsucc]

/-- Witness for `empty_body_policy`. -/
theorem empty_body_policy_witness :
    doDecode (some ⟨"500 Internal Server Error", 500, "HTTP/1.1", 1, 1, [], 0, []⟩) none none true false none
      = .ok ⟨newResponse ⟨"500 Internal Server Error", 500, "HTTP/1.1", 1, 1, [], 0, []⟩, some (.noBody 500), false⟩ :=
  (empty_body_policy ⟨"500 Internal Server Error", 500, "HTTP/1.1", 1, 1, [], 0, []⟩
    rfl (by decide) true none).1 (by decide)

/-- Claim C10: on any transport error, when the `Doer` returns a nil
`*http.Response` beside the error — the documented behaviour of
`http.Client` on every network failure — `doDecode`'s error path passes
the nil pointer to `newResponse`, which dereferences it: a runtime nil
dereference panic, not a returned error.  (With a non-nil response the
error, possibly cancellation-translated, is returned as the claim
says.) -/
theorem doer_error_nil_response_panics :
    (∀ (e : TErr) (cause : Option TErr) (sv fv : Bool) (dres : Option Nat),
        doDecode none (some e) cause sv fv dres = .error .nilDeref)
    ∧ (∀ (r : HResp) (n : Nat) (sv fv : Bool) (dres : Option Nat),
        doDecode (some r) (some (.other n)) none sv fv dres
          = .ok ⟨newResponse r, some (.transport (.other n)), false⟩) := by
  constructor
  · intro e cause sv fv dres
    cases e <;> cases cause <;> rfl
  · intro r n sv fv dres
    rfl

/-- Looking up a key right after `setAssoc` yields exactly the stored
values. -/
theorem lookupHdr_setAssoc (m : HeaderMap) (k : String) (vs : List String) :
    lookupHdr (setAssoc m k vs) k = vs := by
  induction m with
  | nil => simp [setAssoc, lookupHdr]
  | cons e rest ih =>
    by_cases h : e.1 = k <;> simp [setAssoc, lookupHdr, h, ih]

/-- Claim C8: `BodyJSON` with a non-nil payload installs the JSON
provider and sets `Content-Type: application/json`; a subsequent `Body`
with a non-nil reader replaces the provider with the raw one, whose
empty content type leaves the previously set `Content-Type` value in
place. -/
theorem bodyjson_then_body_content_type (st : Store) (p : Nat) (x r : Nat) :
    ((opBodyJSON st p (some x)).slings p).bodyProvider = some (.json x)
    ∧ headerValues ((opBodyJSON st p (some x)).headers
        (((opBodyJSON st p (some x)).slings p).headerRef)) "Content-Type"
      = ["application/json"]
    ∧ ((opBody (opBodyJSON st p (some x)) p (some r)).slings p).bodyProvider = some (.raw r)
    ∧ headerValues ((opBody (opBodyJSON st p (some x)) p (some r)).headers
        (((opBody (opBodyJSON st p (some x)) p (some r)).slings p).headerRef)) "Content-Type"
      = ["application/json"] := by
  refine ⟨?_, ?_, ?_, ?_⟩ <;>
    simp [opBodyJSON, opBody, opBodyProvider, contentTypeOf, updSling, updHeaders,
      headerValues, headerSet, lookupHdr_setAssoc]

/-- Claim C6 (`Path` absorbs parse errors; they only surface from
`Request()`): for every URL-parser instantiation, if parsing the current
raw URL or the path argument fails, `Path` returns with the whole store
— in particular the builder's raw URL — unchanged, and its only return
value is the receiver, so no error can be reported; a raw URL whose
parse fails surfaces later as exactly that parse error from
`requestWithContext`. -/
theorem path_absorbs_parse_errors {U E : Type} (M : URLModel U E) (st : Store)
    (p : Nat) (path : String) :
    (((∃ e, M.parse (st.slings p).rawURL = .error e) ∨ (∃ e, M.parse path = .error e)) →
        opPath M st p path = st)
    ∧ ∀ e, M.parse (st.slings p).rawURL = .error e →
        ∀ bodyOf, slingRequest M bodyOf st p = .error (.urlParse e) := by
  constructor
  · intro h
    unfold opPath
    rcases h with ⟨e, he⟩ | ⟨e, he⟩
    · rw [he]
    · rw [he]
      cases M.parse (st.slings p).rawURL <;> rfl
  · intro e he bodyOf
    unfold slingRequest
    rw [he]

/-- Witness for `path_absorbs_parse_errors`: a raw URL containing a tab
(a control character `net/url.Parse` rejects). -/
theorem path_absorbs_parse_errors_witness :
    opPath demoURLModel
        (opBase (slingNewRoot emptyStore).1 0 "http://h/\t") 0 "x"
      = opBase (slingNewRoot emptyStore).1 0 "http://h/\t"
    ∧ slingRequest demoURLModel (fun _ => .ok [])
        (opBase (slingNewRoot emptyStore).1 0 "http://h/\t") 0
      = .error (.urlParse "net/url: invalid control character in URL") :=
  ⟨(path_absorbs_parse_errors demoURLModel
      (opBase (slingNewRoot emptyStore).1 0 "http://h/\t") 0 "x").1
      (Or.inl ⟨"net/url: invalid control character in URL", by decide⟩),
   (path_absorbs_parse_errors demoURLModel
      (opBase (slingNewRoot emptyStore).1 0 "http://h/\t") 0 "x").2
      "net/url: invalid control character in URL" (by decide) (fun _ => .ok [])⟩

/-- On a nonempty fully readable stream, `readWithCap` returns the whole
body when it has at most 100 bytes, and the first 100 bytes with the
`" (truncated)"` marker otherwise. -/
theorem readWithCap_spec (body : Bytes) (hne : body ≠ []) (c : Nat) :
    readWithCap body c
      = .ok (if 100 < body.length then body.take 100 ++ truncMarker else body) := by
  unfold readWithCap
  have hlen : 0 < body.length := List.length_pos.mpr hne
  by_cases h : 100 < body.length
  · have hmin : min (100 + 1) body.length = 101 := by omega
    simp [hmin, h]
  · have hmin : min (100 + 1) body.length = body.length := by omega
    simp [hmin, h, List.take_length, hlen.ne']

/-- Claim C4: a non-success response with a nil failure destination (and
a success destination, so that decoding is attempted) and a nonempty
readable body synthesizes an error whose message is the fixed text, the
status code, and then: the first 100 body bytes followed by the
truncation marker when the body exceeds 100 bytes, or the whole body
with nothing appended when it has 1 to 100 bytes. -/
theorem failure_body_excerpt (r : HResp) (dres : Option Nat)
    (hns : isSuccessful r.statusCode = false) (h204 : r.statusCode ≠ 204)
    (hcl : r.contentLength ≠ 0) (hne : r.body ≠ []) :
    doDecode (some r) none none true false dres
      = .ok ⟨newResponse r,
          some (.gotBody r.statusCode
            (if 100 < r.body.length then r.body.take 100 ++ truncMarker else r.body)),
          false⟩
    ∧ renderDErr (.gotBody r.statusCode
          (if 100 < r.body.length then r.body.take 100 ++ truncMarker else r.body))
      = strBytes "status code " ++ natDigits r.statusCode
          ++ strBytes " was not successful, got body: "
          ++ (if 100 < r.body.length then r.body.take 100 ++ truncMarker else r.body) := by
  refine ⟨?_, rfl⟩
  simp [doDecode, slingDo, h204, hcl, decodeResponse, hns, readWithCap_spec r.body hne]

/-- Witness for `failure_body_excerpt`: a 150-byte body. -/
theorem failure_body_excerpt_witness :
    doDecode (some ⟨"500 Internal Server Error", 500, "HTTP/1.1", 1, 1, [], 150,
        List.replicate 150 97⟩) none none true false none
      = .ok ⟨newResponse ⟨"500 Internal Server Error", 500, "HTTP/1.1", 1, 1, [], 150,
          List.replicate 150 97⟩,
          some (.gotBody 500
            (if 100 < (List.replicate 150 97 : Bytes).length then
              (List.replicate 150 97 : Bytes).take 100 ++ truncMarker
            else List.replicate 150 97)),
          false⟩ :=
  (failure_body_excerpt ⟨"500 Internal Server Error", 500, "HTTP/1.1", 1, 1, [], 150,
      List.replicate 150 97⟩ none (by decide) (by decide) (by decide) (by decide)).1

/-- Once `hasEnded` is set, no run of calls can invoke `EndTrace` again. -/
theorem runTracerFires_ended (et : Option Nat) (evs : List BodyEv) :
    runTracerFires et true evs = 0 := by
  induction evs with
  | nil => rfl
  | cons ev evs ih =>
    cases ev with
    | read n eof e => cases eof <;> simp [runTracerFires, stepTracer, ih]
    | close e => cases e <;> simp [runTracerFires, stepTracer, ih]

/-- Claim C5, counterexample to the unconditional reading: the stream is
closed (the underlying close reports error 3), yet `EndTrace` never
fires — the code invokes it from `Close` only when the underlying close
succeeds. -/
theorem endtrace_not_fired_on_failing_close :
    runTracerFires (some 5) false [BodyEv.close (some 3)] = 0 := by decide

/-- Claim C5 as amended: over any sequence of calls on a fresh traced
body, `EndTrace` fires exactly once when some call triggers it — a read
the underlying stream answers with `io.EOF`, or a close the underlying
stream answers without error — and zero times otherwise; in particular
it never fires twice, and calls after the first trigger never fire it
again.  When `EndTrace` fails, the triggering `Read` (resp. `Close`)
returns the wrapped `EndTrace` error instead of swallowing it. -/
theorem endtrace_one_shot :
    (∀ (et : Option Nat) (evs : List BodyEv),
        runTracerFires et false evs = if evs.any triggers then 1 else 0)
    ∧ (∀ (terr n : Nat) (e : Option Nat),
        stepTracer (some terr) false (.read n true e)
          = (true, 1, .readRes 0 (some (.wrappedEnd terr))))
    ∧ (∀ terr : Nat,
        stepTracer (some terr) false (.close none)
          = (true, 1, .closeRes (some (.wrappedEnd terr)))) := by
  refine ⟨?_, fun terr n e => rfl, fun terr => rfl⟩
  intro et evs
  induction evs with
  | nil => rfl
  | cons ev evs ih =>
    cases ev with
    | read n eof e =>
      cases eof with
      | false => simpa [runTracerFires, stepTracer, triggers] using ih
      | true =>
        cases et <;>
          simp [runTracerFires, stepTracer, triggers, runTracerFires_ended]
    | close e =>
      cases e with
      | none =>
        cases et <;>
          simp [runTracerFires, stepTracer, triggers, runTracerFires_ended]
      | some err => simpa [runTracerFires, stepTracer, triggers] using ih

/-- `updHeaders` leaves every other header map untouched. -/
theorem updHeaders_headers_ne (st : Store) (h : Nat) (f : HeaderMap → HeaderMap)
    (n : Nat) (hne : n ≠ h) : (updHeaders st h f).headers n = st.headers n := by
  simp [updHeaders, hne]

/-- `updSling` leaves every other sling untouched. -/
theorem updSling_slings_ne (st : Store) (p : Nat) (f : SlingObj → SlingObj)
    (n : Nat) (hne : n ≠ p) : (updSling st p f).slings n = st.slings n := by
  simp [updSling, hne]

/-- Frame property of one mutator applied at `q`: the sling at `r` and
the header map it references are untouched, and `q`'s own header
reference is stable. -/
theorem applyOp_frame (st : Store) (q r : Nat) (op : COp)
    (hqr : q ≠ r) (hh : (st.slings q).headerRef ≠ (st.slings r).headerRef) :
    (applyOp st q op).slings r = st.slings r
    ∧ ((applyOp st q op).slings q).headerRef = (st.slings q).headerRef
    ∧ (applyOp st q op).headers ((st.slings r).headerRef)
        = st.headers ((st.slings r).headerRef) := by
  cases op with
  | add k v =>
    refine ⟨rfl, rfl, ?_⟩
    simp only [applyOp]
    exact updHeaders_headers_ne _ _ _ _ (Ne.symm hh)
  | set k v =>
    refine ⟨rfl, rfl, ?_⟩
    simp only [applyOp]
    exact updHeaders_headers_ne _ _ _ _ (Ne.symm hh)
  | addHeaders h =>
    refine ⟨rfl, rfl, ?_⟩
    simp only [applyOp]
    exact updHeaders_headers_ne _ _ _ _ (Ne.symm hh)
  | setHeaders h =>
    refine ⟨rfl, rfl, ?_⟩
    simp only [applyOp]
    exact updHeaders_headers_ne _ _ _ _ (Ne.symm hh)
  | queryStruct q0 =>
    cases q0 with
    | none => exact ⟨rfl, rfl, rfl⟩
    | some src =>
      refine ⟨?_, ?_, rfl⟩
      · simp only [applyOp]
        exact updSling_slings_ne _ _ _ _ (Ne.symm hqr)
      · simp [applyOp, updSling]
  | queryValues v0 =>
    cases v0 with
    | none => exact ⟨rfl, rfl, rfl⟩
    | some vs =>
      refine ⟨?_, ?_, rfl⟩
      · simp only [applyOp]
        exact updSling_slings_ne _ _ _ _ (Ne.symm hqr)
      · simp [applyOp, updSling]

/-- Frame property of a whole chain of mutators: everything observable
about the sling at `r` survives any sequence of mutations of the
distinct sling at `q`, provided the two do not share a header map. -/
theorem observe_applyOps_ne (ops : List COp) : ∀ (st : Store) (q r : Nat),
    q ≠ r → (st.slings q).headerRef ≠ (st.slings r).headerRef →
    observe (applyOps st q ops) r = observe st r := by
  induction ops with
  | nil => intro st q r _ _; rfl
  | cons op ops ih =>
    intro st q r hqr hh
    obtain ⟨hr, hqref, hhdr⟩ := applyOp_frame st q r op hqr hh
    have hrec := ih (applyOp st q op) q r hqr (by rw [hqref, hr]; exact hh)
    simp only [applyOps]
    rw [hrec]
    unfold observe
    rw [hr, hhdr]

/-- Claim C1: `(s *Sling).New()` allocates a fresh header map and copies
the query-source slice, so — for a well-formed store, where the parent's
references are allocated — any chain of `Add`/`Set`/`AddHeaders`/
`SetHeaders`/`QueryStruct`/`QueryValues` calls on the clone leaves every
observable of the parent (its struct fields, query-source sequence and
header map contents) unchanged, and any such chain on the parent leaves
the clone unchanged. -/
theorem sling_clone_independent (st : Store) (p : Nat)
    (h1 : p < st.nextSling) (h2 : (st.slings p).headerRef < st.nextHeader) :
    (∀ ops : List COp,
        observe (applyOps (slingClone st p).1 (slingClone st p).2 ops) p
          = observe (slingClone st p).1 p)
    ∧ (∀ ops : List COp,
        observe (applyOps (slingClone st p).1 p ops) (slingClone st p).2
          = observe (slingClone st p).1 (slingClone st p).2) := by
  have hpc : p ≠ st.nextSling := Nat.ne_of_lt h1
  have hc2 : (slingClone st p).2 = st.nextSling := rfl
  have hsc : (slingClone st p).1.slings st.nextSling
      = { st.slings p with headerRef := st.nextHeader } := by
    simp [slingClone]
  have hsp : (slingClone st p).1.slings p = st.slings p := by
    simp [slingClone, hpc]
  have hrefs : ((slingClone st p).1.slings st.nextSling).headerRef
      ≠ ((slingClone st p).1.slings p).headerRef := by
    rw [hsc, hsp]
    exact (Nat.ne_of_lt h2).symm
  constructor
  · intro ops
    rw [hc2]
    exact observe_applyOps_ne ops _ _ _ (Ne.symm hpc) hrefs
  · intro ops
    rw [hc2]
    exact observe_applyOps_ne ops _ _ _ hpc (Ne.symm hrefs)

/-- Witness for `sling_clone_independent`: a freshly allocated builder,
cloned, with a header addition and a query source appended on the
clone. -/
theorem sling_clone_independent_witness :
    observe (applyOps (slingClone (slingNewRoot emptyStore).1 0).1
        (slingClone (slingNewRoot emptyStore).1 0).2
        [COp.add "X-A" "1", COp.queryValues (some [(strBytes "a", [strBytes "1"])])]) 0
      = observe (slingClone (slingNewRoot emptyStore).1 0).1 0 :=
  (sling_clone_independent (slingNewRoot emptyStore).1 0 (by decide) (by decide)).1
    [COp.add "X-A" "1", COp.queryValues (some [(strBytes "a", [strBytes "1"])])]

/-- `Add` appends to the looked-up values of its own key. -/
theorem lookupVals_valuesAdd_self (m : ValuesB) (k v : Bytes) :
    lookupVals (valuesAdd m k v) k = lookupVals m k ++ [v] := by
  induction m with
  | nil => simp [valuesAdd, lookupVals]
  | cons e rest ih =>
    by_cases h : e.1 = k <;> simp [valuesAdd, lookupVals, h, ih]

/-- `Add` leaves every other key's values alone. -/
theorem lookupVals_valuesAdd_ne (m : ValuesB) (k v k' : Bytes) (h : k' ≠ k) :
    lookupVals (valuesAdd m k v) k' = lookupVals m k' := by
  induction m with
  | nil => simp [valuesAdd, lookupVals, Ne.symm h]
  | cons e rest ih =>
    by_cases he : e.1 = k
    · subst he
      simp [valuesAdd, lookupVals, Ne.symm h]
    · by_cases he' : e.1 = k' <;> simp [valuesAdd, lookupVals, h, he, he', ih]

/-- Lookup of an absent key is empty. -/
theorem lookupVals_not_mem (m : ValuesB) (k : Bytes) (h : k ∉ m.map Prod.fst) :
    lookupVals m k = [] := by
  induction m with
  | nil => rfl
  | cons e rest ih =>
    simp only [List.map_cons, List.mem_cons, not_or] at h
    simp [lookupVals, Ne.symm h.1, ih h.2]

/-- Adding a whole value list of one key, as the inner loop of the merge
does. -/
theorem lookupVals_addVals (vs : List Bytes) : ∀ (acc : ValuesB) (k0 k : Bytes),
    lookupVals (vs.foldl (fun acc v => valuesAdd acc k0 v) acc) k
      = lookupVals acc k ++ (if k = k0 then vs else []) := by
  induction vs with
  | nil => intro acc k0 k; simp
  | cons v vs ih =>
    intro acc k0 k
    rw [List.foldl_cons, ih]
    by_cases h : k = k0
    · subst h
      rw [lookupVals_valuesAdd_self]
      simp
    · rw [lookupVals_valuesAdd_ne _ _ _ _ h]
      simp [h]

/-- Merging one source appends, key by key, exactly that source's
values (the source being a Go map, its keys are unique). -/
theorem lookupVals_mergeInto (src : ValuesB) : ∀ (acc : ValuesB) (k : Bytes),
    nodupKeys src →
    lookupVals (mergeInto acc src) k = lookupVals acc k ++ lookupVals src k := by
  induction src with
  | nil => intro acc k _; simp [mergeInto, lookupVals]
  | cons e rest ih =>
    intro acc k hnd
    rw [nodupKeys, List.map_cons, List.nodup_cons] at hnd
    have step : mergeInto acc (e :: rest)
        = mergeInto (e.2.foldl (fun acc v => valuesAdd acc e.1 v) acc) rest := by
      simp [mergeInto]
    rw [step, ih _ k hnd.2, lookupVals_addVals]
    by_cases h : k = e.1
    · rw [h, lookupVals_not_mem rest e.1 hnd.1]
      simp [lookupVals]
    · simp [lookupVals, Ne.symm h, h]

/-- Merging a list of sources appends, key by key, every source's
values in source order. -/
theorem lookupVals_mergeAll (srcs : List ValuesB) : ∀ (m0 : ValuesB) (k : Bytes),
    (∀ s ∈ srcs, nodupKeys s) →
    lookupVals (mergeAll m0 srcs) k
      = lookupVals m0 k ++ (srcs.map (fun s => lookupVals s k)).flatten := by
  induction srcs with
  | nil => intro m0 k _; simp [mergeAll]
  | cons s srcs ih =>
    intro m0 k hnd
    have step : mergeAll m0 (s :: srcs) = mergeAll (mergeInto m0 s) srcs := by
      simp [mergeAll]
    rw [step, ih _ k (fun t ht => hnd t (List.mem_cons_of_mem _ ht)),
      lookupVals_mergeInto s m0 k (hnd s (List.mem_cons_self s srcs))]
    simp

/-- `Add` either keeps the key list or appends the one new key. -/
theorem keys_valuesAdd (m : ValuesB) (k v : Bytes) :
    (valuesAdd m k v).map Prod.fst
      = if k ∈ m.map Prod.fst then m.map Prod.fst else m.map Prod.fst ++ [k] := by
  induction m with
  | nil => simp [valuesAdd]
  | cons e rest ih =>
    by_cases h : e.1 = k
    · simp [valuesAdd, h]
    · have h' : ¬ k = e.1 := fun hk => h hk.symm
      simp only [valuesAdd, h, if_false, List.map_cons, ih, List.mem_cons]
      by_cases hmem : k ∈ rest.map Prod.fst <;> simp [hmem, h']

/-- `Add` preserves key uniqueness. -/
theorem nodupKeys_valuesAdd (m : ValuesB) (k v : Bytes) (h : nodupKeys m) :
    nodupKeys (valuesAdd m k v) := by
  rw [nodupKeys, keys_valuesAdd]
  by_cases hmem : k ∈ m.map Prod.fst
  · simpa [hmem] using h
  · simp only [hmem, if_false]
    rw [List.nodup_append]
    refine ⟨h, List.nodup_singleton k, ?_⟩
    intro a ha hak
    rw [List.mem_singleton] at hak
    exact hmem (hak ▸ ha)

/-- The one-key inner loop preserves key uniqueness. -/
theorem nodupKeys_addVals (vs : List Bytes) : ∀ (acc : ValuesB) (k0 : Bytes),
    nodupKeys acc → nodupKeys (vs.foldl (fun acc v => valuesAdd acc k0 v) acc) := by
  induction vs with
  | nil => intro acc k0 h; exact h
  | cons v vs ih =>
    intro acc k0 h
    rw [List.foldl_cons]
    exact ih _ _ (nodupKeys_valuesAdd acc k0 v h)

/-- Merging one source preserves key uniqueness. -/
theorem nodupKeys_mergeInto (src : ValuesB) : ∀ acc : ValuesB,
    nodupKeys acc → nodupKeys (mergeInto acc src) := by
  induction src with
  | nil => intro acc h; exact h
  | cons e rest ih =>
    intro acc h
    have step : mergeInto acc (e :: rest)
        = mergeInto (e.2.foldl (fun acc v => valuesAdd acc e.1 v) acc) rest := by
      simp [mergeInto]
    rw [step]
    exact ih _ (nodupKeys_addVals e.2 acc e.1 h)

/-- Merging all sources preserves key uniqueness. -/
theorem nodupKeys_mergeAll (srcs : List ValuesB) : ∀ m0 : ValuesB,
    nodupKeys m0 → nodupKeys (mergeAll m0 srcs) := by
  induction srcs with
  | nil => intro m0 h; exact h
  | cons s srcs ih =>
    intro m0 h
    have step : mergeAll m0 (s :: srcs) = mergeAll (mergeInto m0 s) srcs := by
      simp [mergeAll]
    rw [step]
    exact ih _ (nodupKeys_mergeInto s m0 h)

/-- Each `ParseQuery` loop step preserves key uniqueness. -/
theorem nodupKeys_processSeg (m : ValuesB) (seg : Bytes) (m' : ValuesB)
    (h : processSeg m seg = .ok m') (hm : nodupKeys m) : nodupKeys m' := by
  unfold processSeg at h
  by_cases hsemi : List.contains seg 59 = true
  · rw [if_pos hsemi] at h
    cases h
  · by_cases hempty : seg = []
    · rw [if_neg hsemi, if_pos hempty] at h
      cases h
      exact hm
    · rw [if_neg hsemi, if_neg hempty] at h
      rcases hk : queryUnescape (cutByte 61 seg).1 with e | k
      · simp [hk] at h
      rcases hv : queryUnescape (cutByte 61 seg).2 with e' | v
      · simp [hk, hv] at h
      simp [hk, hv] at h
      rw [← h]
      exact nodupKeys_valuesAdd m k v hm

/-- `>>=` on an `Except` error short-circuits. -/
theorem exceptBind_error {A B C : Type} (e : A) (f : B → Except A C) :
    (Except.error e >>= f) = Except.error e := rfl

/-- `>>=` on an `Except` success applies the continuation. -/
theorem exceptBind_ok {A B C : Type} (b : B) (f : B → Except A C) :
    (Except.ok b >>= f) = f b := rfl

/-- `ParseQuery` produces a map with unique keys. -/
theorem nodupKeys_parseQuery (raw : Bytes) (m : ValuesB)
    (h : parseQuery raw = .ok m) : nodupKeys m := by
  rw [parseQuery] at h
  suffices hgen : ∀ (segs : List Bytes) (acc : ValuesB), nodupKeys acc →
      segs.foldlM processSeg acc = .ok m → nodupKeys m by
    exact hgen _ [] (by simp [nodupKeys]) h
  intro segs
  induction segs with
  | nil =>
    intro acc hacc hfold
    simp only [List.foldlM] at hfold
    cases hfold
    exact hacc
  | cons seg segs ih =>
    intro acc hacc hfold
    rw [List.foldlM_cons] at hfold
    rcases hstep : processSeg acc seg with e | acc'
    · rw [hstep, exceptBind_error] at hfold
      simp at hfold
    · rw [hstep, exceptBind_ok] at hfold
      exact ih acc' (nodupKeys_processSeg acc seg acc' hstep hacc) hfold

/-- When a source's encoding succeeds, its default extraction is its
value. -/
theorem sourceValuesD_of_ok (q : QuerySource) (v : ValuesB)
    (h : sourceValues q = .ok v) : sourceValuesD q = v := by
  simp [sourceValuesD, h]

/-- With every source encoding successfully, the merge loop of
`addQueryStructs` computes `mergeAll`. -/
theorem sources_fold_ok (qs : List QuerySource) : ∀ acc : ValuesB,
    (∀ q ∈ qs, srcOk q = true) →
    (qs.foldlM (fun acc q =>
        match sourceValues q with
        | .ok v => Except.ok (mergeInto acc v)
        | .error _ => Except.error QErr.encodeFail) acc)
      = Except.ok (mergeAll acc (qs.map sourceValuesD)) := by
  induction qs with
  | nil => intro acc _; rfl
  | cons q qs ih =>
    intro acc hok
    rw [List.foldlM_cons]
    have hq := hok q (List.mem_cons_self q qs)
    rcases hsv : sourceValues q with e | v
    · rw [srcOk, hsv] at hq
      cases hq
    · have hd : sourceValuesD q = v := sourceValuesD_of_ok q v hsv
      simp only [hsv, exceptBind_ok]
      rw [ih _ (fun t ht => hok t (List.mem_cons_of_mem _ ht))]
      simp [mergeAll, hd]

/-- `pairsAt` distributes over append. -/
theorem pairsAt_append (a b : List (Bytes × Bytes)) (k : Bytes) :
    pairsAt (a ++ b) k = pairsAt a k ++ pairsAt b k := by
  simp [pairsAt, List.filter_append]

/-- `pairsAt` steps through one pair. -/
theorem pairsAt_cons (p : Bytes × Bytes) (l : List (Bytes × Bytes)) (k : Bytes) :
    pairsAt (p :: l) k = if p.1 = k then p.2 :: pairsAt l k else pairsAt l k := by
  by_cases h : p.1 = k <;> simp [pairsAt, List.filter_cons, h]

/-- `pairsAt` on the block of one key. -/
theorem pairsAt_group (k0 : Bytes) (vs : List Bytes) (k : Bytes) :
    pairsAt (vs.map fun v => (k0, v)) k = if k0 = k then vs else [] := by
  induction vs with
  | nil => simp [pairsAt]
  | cons v vs ih =>
    rw [List.map_cons, pairsAt_cons, ih]
    by_cases h : k0 = k <;> simp [h]

/-- `pairsAt` of the flattened pair list, via the per-entry filter. -/
theorem pairsAt_flat (l : ValuesB) (k : Bytes) :
    pairsAt (l.flatMap fun e => e.2.map fun v => (e.1, v)) k
      = (l.filter fun e => e.1 == k).flatMap fun e => e.2 := by
  induction l with
  | nil => simp [pairsAt]
  | cons e rest ih =>
    rw [List.flatMap_cons, pairsAt_append, pairsAt_group, ih]
    by_cases h : e.1 = k
    · simp [List.filter_cons, h]
    · simp [List.filter_cons, h]

/-- An absent key filters to nothing. -/
theorem filter_key_nil (m : ValuesB) (k : Bytes) (h : k ∉ m.map Prod.fst) :
    (m.filter fun e => e.1 == k) = [] := by
  induction m with
  | nil => rfl
  | cons e rest ih =>
    simp only [List.map_cons, List.mem_cons, not_or] at h
    have hne : ¬ e.1 = k := fun hh => h.1 hh.symm
    simp [List.filter_cons, hne, ih h.2]

/-- With unique keys, the key's filtered block is exactly its lookup. -/
theorem filter_key_eq_lookup (m : ValuesB) (k : Bytes) : nodupKeys m →
    ((m.filter fun e => e.1 == k).flatMap fun e => e.2) = lookupVals m k := by
  induction m with
  | nil => intro _; rfl
  | cons e rest ih =>
    intro hnd
    rw [nodupKeys, List.map_cons, List.nodup_cons] at hnd
    by_cases h : e.1 = k
    · have hrest : rest.filter (fun e => e.1 == k) = [] :=
        filter_key_nil rest k (h ▸ hnd.1)
      simp [List.filter_cons, h, hrest, lookupVals]
    · simp [List.filter_cons, h, ih hnd.2, lookupVals]

/-- With unique keys, at most one entry carries a given key. -/
theorem filter_key_len_le_one (m : ValuesB) (k : Bytes) : nodupKeys m →
    (m.filter fun e => e.1 == k).length ≤ 1 := by
  induction m with
  | nil => intro _; simp
  | cons e rest ih =>
    intro hnd
    rw [nodupKeys, List.map_cons, List.nodup_cons] at hnd
    by_cases h : e.1 = k
    · have hrest : rest.filter (fun e => e.1 == k) = [] :=
        filter_key_nil rest k (h ▸ hnd.1)
      simp [List.filter_cons, h, hrest]
    · simp only [List.filter_cons, h]
      simpa [h] using ih hnd.2

/-- Permutations of lists of length at most one are equalities. -/
theorem perm_eq_of_short {α : Type} {l l' : List α} (h : l.Perm l')
    (hl : l'.length ≤ 1) : l = l' := by
  cases l' with
  | nil => exact h.eq_nil
  | cons a t =>
    cases t with
    | nil => exact List.perm_singleton.mp h
    | cons b t2 => simp at hl

/-- Sorting does not change a unique key's filtered block. -/
theorem filter_sortPairs (m : ValuesB) (hnd : nodupKeys m) (k : Bytes) :
    (sortPairs m).filter (fun e => e.1 == k) = m.filter (fun e => e.1 == k) := by
  exact perm_eq_of_short ((List.perm_insertionSort keyLe m).filter _)
    (filter_key_len_le_one m k hnd)

/-- With unique keys, the serialized pair list holds, under each key,
exactly the map's values for that key, in order. -/
theorem pairsAt_encodePairs (m : ValuesB) (hnd : nodupKeys m) (k : Bytes) :
    pairsAt (encodePairs m) k = lookupVals m k := by
  rw [encodePairs, pairsAt_flat, filter_sortPairs m hnd k, filter_key_eq_lookup m k hnd]

/-- A key list mapped from one entry's block is internally `≤`-related. -/
theorem pairwise_const_le (a : Bytes) (vs : List Bytes) :
    List.Pairwise (fun x y : Bytes => x ≤ y) (vs.map fun _ => a) := by
  induction vs with
  | nil => simp
  | cons v vs ih =>
    rw [List.map_cons, List.pairwise_cons]
    refine ⟨fun b hb => ?_, ih⟩
    rcases List.mem_map.mp hb with ⟨x, _, rfl⟩
    exact le_refl a

/-- Every key of the flattened pair list is the key of some entry. -/
theorem mem_flat_keys {l : ValuesB} {b : Bytes}
    (hb : b ∈ (l.flatMap fun e => e.2.map fun v => (e.1, v)).map Prod.fst) :
    ∃ e ∈ l, b = e.1 := by
  rcases List.mem_map.mp hb with ⟨p, hp, rfl⟩
  rcases List.mem_flatMap.mp hp with ⟨e, he, hpe⟩
  rcases List.mem_map.mp hpe with ⟨v, _, rfl⟩
  exact ⟨e, he, rfl⟩

/-- Flattening a key-sorted entry list yields a key-sorted pair list. -/
theorem keys_flat_sorted : ∀ l : ValuesB, List.Sorted keyLe l →
    List.Sorted (fun a b : Bytes => a ≤ b)
      ((l.flatMap fun e => e.2.map fun v => (e.1, v)).map Prod.fst) := by
  intro l
  induction l with
  | nil => intro _; simp [List.Sorted]
  | cons e rest ih =>
    intro hs
    rw [List.sorted_cons] at hs
    rw [List.flatMap_cons, List.map_append]
    rw [List.Sorted, List.pairwise_append]
    refine ⟨?_, ih hs.2, ?_⟩
    · rw [List.map_map]
      exact pairwise_const_le e.1 e.2
    · intro a ha b hb
      rw [List.map_map] at ha
      rcases List.mem_map.mp ha with ⟨v, _, rfl⟩
      rcases mem_flat_keys hb with ⟨e', he', rfl⟩
      exact hs.1 e' he'

/-- The serialized query's parameter keys are sorted. -/
theorem encodePairs_keys_sorted (m : ValuesB) :
    List.Sorted (fun a b : Bytes => a ≤ b) ((encodePairs m).map Prod.fst) := by
  rw [encodePairs]
  exact keys_flat_sorted (sortPairs m) (List.sorted_insertionSort keyLe m)

/-- Claim C2: starting from a well-formed existing query string and any
sequence of `QueryValues`/`QueryStruct` sources whose encodings succeed
(each source being a Go map, its keys are unique), `addQueryStructs`
returns the canonical encoding of the merged map, in which every key
holds the existing query's values followed by each source's values in
source order — duplicates preserved, never overwritten — the serialized
pair list carries exactly those values per key, and the serialization's
parameter keys are sorted. -/
theorem query_merge_complete (raw : Bytes) (qs : List QuerySource) (m0 : ValuesB)
    (hparse : parseQuery raw = .ok m0)
    (hok : ∀ q ∈ qs, srcOk q = true)
    (hnd : ∀ q ∈ qs, nodupKeys (sourceValuesD q)) :
    addQueryStructs raw qs
      = .ok (encodeValues (mergeAll m0 (qs.map sourceValuesD)))
    ∧ (∀ k, lookupVals (mergeAll m0 (qs.map sourceValuesD)) k
        = lookupVals m0 k
            ++ ((qs.map sourceValuesD).map (fun s => lookupVals s k)).flatten)
    ∧ (∀ k, pairsAt (encodePairs (mergeAll m0 (qs.map sourceValuesD))) k
        = lookupVals (mergeAll m0 (qs.map sourceValuesD)) k)
    ∧ List.Sorted (fun a b : Bytes => a ≤ b)
        ((encodePairs (mergeAll m0 (qs.map sourceValuesD))).map Prod.fst) := by
  have hnd0 : nodupKeys m0 := nodupKeys_parseQuery raw m0 hparse
  have hndAll : nodupKeys (mergeAll m0 (qs.map sourceValuesD)) := by
    refine nodupKeys_mergeAll _ _ hnd0
  refine ⟨?_, ?_, ?_, encodePairs_keys_sorted _⟩
  · rw [addQueryStructs, hparse, exceptBind_ok, sources_fold_ok qs m0 hok, exceptBind_ok]
  · intro k
    refine lookupVals_mergeAll _ _ _ ?_
    intro s hs
    rcases List.mem_map.mp hs with ⟨q, hq, rfl⟩
    exact hnd q hq
  · intro k
    exact pairsAt_encodePairs _ hndAll k

/-- Witness for `query_merge_complete`: existing query `a=0` with two
`QueryValues` sources `{a: [1]}` and `{a: [2]}`. -/
theorem query_merge_complete_witness :
    addQueryStructs (strBytes "a=0")
        [QuerySource.values [(strBytes "a", [strBytes "1"])],
         QuerySource.values [(strBytes "a", [strBytes "2"])]]
      = .ok (encodeValues (mergeAll [(strBytes "a", [strBytes "0"])]
          ([QuerySource.values [(strBytes "a", [strBytes "1"])],
            QuerySource.values [(strBytes "a", [strBytes "2"])]].map sourceValuesD))) :=
  (query_merge_complete (strBytes "a=0")
    [QuerySource.values [(strBytes "a", [strBytes "1"])],
     QuerySource.values [(strBytes "a", [strBytes "2"])]]
    [(strBytes "a", [strBytes "0"])]
    (by decide) (by decide) (by decide)).1
